import Mathlib

/-!
# Verification of the csv-filtering in-memory tabular query engine

A shallow embedding, in Lean 4, of the engine functions of the
`karangattu/csv-filtering` repository (`src/lib/utils.js` and the premium
utility module, plus the anonymization helpers of
`src/components/AnonymizePanel.jsx`), together with theorems settling the
frozen claims about the natural-language specification.

Scalar cell values are JavaScript values restricted to the shapes that occur
in the engine (rows arrive with string cells; `null`/`undefined` appear via
object lookups).  JavaScript numbers are modelled exactly as rationals
extended with `NaN` and the two infinities; floating-point rounding error is
not modelled (every concrete input used in a theorem below is exact in
binary64 at the scales involved).
-/

/-- A JavaScript scalar value as it occurs in engine rows and filter
configurations: `null`, `undefined`, or a string. -/
inductive Value where
  | null : Value
  | undefined : Value
  | str : String → Value
deriving DecidableEq, Repr

/-- Model of a JavaScript number: `NaN`, `Infinity`, `-Infinity`, or a finite
value (an exact rational; binary64 rounding is not modelled). -/
inductive JSNum where
  | nan : JSNum
  | posInf : JSNum
  | negInf : JSNum
  | val : ℚ → JSNum
deriving DecidableEq, Repr

namespace JSNum

/-- `isNaN` on a JavaScript number. -/
def isNaN : JSNum → Bool
  | .nan => true
  | _ => false

/-- JavaScript `+` on numbers (IEEE special-value rules; exact on finite
values). -/
def add : JSNum → JSNum → JSNum
  | .nan, _ => .nan
  | _, .nan => .nan
  | .posInf, .negInf => .nan
  | .negInf, .posInf => .nan
  | .posInf, _ => .posInf
  | _, .posInf => .posInf
  | .negInf, _ => .negInf
  | _, .negInf => .negInf
  | .val a, .val b => .val (a + b)

/-- JavaScript unary minus on numbers. -/
def neg : JSNum → JSNum
  | .nan => .nan
  | .posInf => .negInf
  | .negInf => .posInf
  | .val a => .val (-a)

/-- JavaScript binary `-` on numbers. -/
def sub (a b : JSNum) : JSNum := add a (neg b)

/-- JavaScript `*` on numbers (IEEE special-value rules; exact on finite
values). -/
def mul : JSNum → JSNum → JSNum
  | .nan, _ => .nan
  | _, .nan => .nan
  | .posInf, .posInf => .posInf
  | .posInf, .negInf => .negInf
  | .negInf, .posInf => .negInf
  | .negInf, .negInf => .posInf
  | .posInf, .val b => if b = 0 then .nan else if 0 < b then .posInf else .negInf
  | .val a, .posInf => if a = 0 then .nan else if 0 < a then .posInf else .negInf
  | .negInf, .val b => if b = 0 then .nan else if 0 < b then .negInf else .posInf
  | .val a, .negInf => if a = 0 then .nan else if 0 < a then .negInf else .posInf
  | .val a, .val b => .val (a * b)

/-- Division of a JavaScript number by a nonzero finite constant (the only
shape of division the engine performs, in `x / 100` and `sum / length`). -/
def divC (a : JSNum) (c : ℚ) : JSNum :=
  match a with
  | .nan => .nan
  | .posInf => if 0 < c then .posInf else .negInf
  | .negInf => if 0 < c then .negInf else .posInf
  | .val q => .val (q / c)

/-- JavaScript `===` on numbers (`NaN` is not equal to anything, including
itself). -/
def eqb : JSNum → JSNum → Bool
  | .nan, _ => false
  | _, .nan => false
  | .posInf, .posInf => true
  | .negInf, .negInf => true
  | .val a, .val b => a = b
  | _, _ => false

/-- JavaScript `<` on numbers (`false` whenever a `NaN` is involved). -/
def ltb : JSNum → JSNum → Bool
  | .nan, _ => false
  | _, .nan => false
  | .posInf, _ => false
  | _, .posInf => true
  | .negInf, .negInf => false
  | .negInf, _ => true
  | _, .negInf => false
  | .val a, .val b => a < b

/-- JavaScript `<=` on numbers (`false` whenever a `NaN` is involved). -/
def leb (a b : JSNum) : Bool := ltb a b || eqb a b

/-- JavaScript `Math.round` (rounds half toward positive infinity). -/
def round : JSNum → JSNum
  | .nan => .nan
  | .posInf => .posInf
  | .negInf => .negInf
  | .val q => .val (⌊q + 1/2⌋ : ℤ)

/-- `Math.min` of two numbers (`NaN`-propagating). -/
def minOp : JSNum → JSNum → JSNum
  | .nan, _ => .nan
  | _, .nan => .nan
  | a, b => if ltb a b then a else b

/-- `Math.max` of two numbers (`NaN`-propagating). -/
def maxOp : JSNum → JSNum → JSNum
  | .nan, _ => .nan
  | _, .nan => .nan
  | a, b => if ltb a b then b else a

end JSNum

/-- `Math.round(x * 100) / 100`: the engine's ubiquitous two-decimal
rounding of a display value. -/
def round2 (x : JSNum) : JSNum := (x.mul (.val 100)).round.divC 100

/-! String operations are implemented character-wise (rather than through
the byte-indexed core-library functions) so that every engine function
below evaluates inside the kernel; they model the corresponding JavaScript
string methods, with ASCII case mapping. -/

/-- Strip leading and trailing white space from a character list. -/
def trimChars (l : List Char) : List Char :=
  ((l.dropWhile Char.isWhitespace).reverse.dropWhile Char.isWhitespace).reverse

/-- JavaScript `s.trim()`. -/
def jsTrim (s : String) : String := String.mk (trimChars s.toList)

/-- JavaScript `s.toLowerCase()` (ASCII case mapping). -/
def jsLower (s : String) : String := String.mk (s.toList.map Char.toLower)

/-- JavaScript `s.toUpperCase()` (ASCII case mapping). -/
def jsUpper (s : String) : String := String.mk (s.toList.map Char.toUpper)

/-- Does `hay` start with `needle` (character lists)? -/
def listStartsWith : List Char → List Char → Bool
  | [], _ => true
  | _ :: _, [] => false
  | c :: cs, d :: ds => c == d && listStartsWith cs ds

/-- Does `needle` occur contiguously inside `hay` (character lists)? -/
def listIncludes (hay needle : List Char) : Bool :=
  match hay with
  | [] => needle.isEmpty
  | _ :: tl => listStartsWith needle hay || listIncludes tl needle

/-- JavaScript `a.includes(b)` on strings. -/
def strIncludes (a b : String) : Bool := listIncludes a.toList b.toList

/-- JavaScript `a.startsWith(b)`. -/
def jsStartsWith (a b : String) : Bool := listStartsWith b.toList a.toList

/-- JavaScript `a.endsWith(b)`. -/
def jsEndsWith (a b : String) : Bool :=
  listStartsWith b.toList.reverse a.toList.reverse

/-- Split a character list at every comma (worker for `jsSplitComma`). -/
def splitCommaChars : List Char → List Char → List String
  | [], cur => [String.mk cur.reverse]
  | c :: cs, cur =>
    if c = ',' then String.mk cur.reverse :: splitCommaChars cs []
    else splitCommaChars cs (c :: cur)

/-- JavaScript `s.split(',')`. -/
def jsSplitComma (s : String) : List String := splitCommaChars s.toList []

/-- JavaScript `a < b` on strings (lexicographic by code unit). -/
def listLtChars : List Char → List Char → Bool
  | [], [] => false
  | [], _ :: _ => true
  | _ :: _, [] => false
  | c :: cs, d :: ds => c < d || (c == d && listLtChars cs ds)

/-- String comparison used to model the default JavaScript `Array.sort`
comparator on (distinct) string keys. -/
def jsStrLtb (a b : String) : Bool := listLtChars a.toList b.toList

/-- Sum of a list of JavaScript numbers, as produced by
`values.reduce((a, b) => a + b, 0)`. -/
def jsSum (l : List JSNum) : JSNum := l.foldl JSNum.add (.val 0)

section StringToNumber

/-- One decimal digit of a character, if any. -/
def digitVal (c : Char) : Option ℕ :=
  if '0' ≤ c ∧ c ≤ '9' then some (c.toNat - '0'.toNat) else none

/-- Parse a nonempty run of decimal digits at the front of a character list,
returning its value, its length, and the rest. -/
def parseDigits : List Char → ℕ → ℕ → (ℕ × ℕ × List Char)
  | [], acc, len => (acc, len, [])
  | c :: cs, acc, len =>
    match digitVal c with
    | some d => parseDigits cs (acc * 10 + d) (len + 1)
    | none => (acc, len, c :: cs)

/-- Parse an optional sign, returning the sign as `1` or `-1` and the rest. -/
def parseSign : List Char → (ℤ × List Char)
  | '+' :: cs => (1, cs)
  | '-' :: cs => (-1, cs)
  | cs => (1, cs)

/-- Parse the unsigned mantissa-and-exponent body of a decimal literal:
`digits`, `digits.digits`, `.digits`, each with an optional
`e`/`E`-exponent.  Returns `none` when the text is not exactly such a
literal. -/
def parseDecBody (cs : List Char) : Option ℚ :=
  let (ip, ilen, rest) := parseDigits cs 0 0
  let frac :=
    match rest with
    | '.' :: cs2 => parseDigits cs2 0 0
    | _ => (0, 0, rest)
  let fp := frac.1
  let flen := frac.2.1
  let rest3 := frac.2.2
  if ilen = 0 ∧ flen = 0 then none
  else
    let mant : ℚ := (ip : ℚ) + (fp : ℚ) / ((10 : ℚ) ^ flen)
    match rest3 with
    | [] => some mant
    | e :: cs3 =>
      if e = 'e' ∨ e = 'E' then
        let (es, cs4) := parseSign cs3
        let (ev, elen, rest4) := parseDigits cs4 0 0
        if elen = 0 ∨ rest4 ≠ [] then none
        else some (mant * (10 : ℚ) ^ (es * (ev : ℤ)))
      else none

/-- Model of JavaScript `Number(string)` (the ECMAScript StringToNumber
coercion) on the literal shapes the engine can meet: surrounding white
space is trimmed, the empty string is `0`, `Infinity` forms are infinite,
signed decimal literals (with optional fraction and exponent) are exact
rationals, and anything else is `NaN`.  Hexadecimal, octal and binary
literals are not modelled (no claim involves them). -/
def jsStringToNumber (s : String) : JSNum :=
  let t := jsTrim s
  if t = "" then .val 0
  else if t = "Infinity" ∨ t = "+Infinity" then .posInf
  else if t = "-Infinity" then .negInf
  else
    let (sign, body) := parseSign t.toList
    match parseDecBody body with
    | some q => .val ((sign : ℚ) * q)
    | none => .nan

/-- Model of JavaScript `Number(value)` on engine scalar values:
`Number(null) = 0`, `Number(undefined) = NaN`, strings via
StringToNumber. -/
def jsToNumber : Value → JSNum
  | .null => .val 0
  | .undefined => .nan
  | .str s => jsStringToNumber s

end StringToNumber

/-- `String(v)` for the scalar values above. -/
def jsToString : Value → String
  | .null => "null"
  | .undefined => "undefined"
  | .str s => s

/-- JavaScript truthiness of an engine scalar value (`null`, `undefined`
and the empty string are falsy; every other string is truthy). -/
def jsTruthy : Value → Bool
  | .null => false
  | .undefined => false
  | .str s => s ≠ ""

/-- The engine's blank test, as written in `applyFilter`'s `is empty`
branch: `v === '' || v === null || v === undefined ||
(typeof v === 'string' && v.trim() === '')`. -/
def isBlank : Value → Bool
  | .null => true
  | .undefined => true
  | .str s => s = "" || jsTrim s = ""

/-- A row: a JavaScript object, i.e. an insertion-ordered association list
with (unique) string keys. -/
abbrev Row := List (String × Value)

/-- Property read `row[key]`: `undefined` when the key is absent. -/
def objGet (r : Row) (k : String) : Value :=
  match r.find? (fun p => p.1 = k) with
  | some p => p.2
  | none => .undefined

/-- Property write `obj[key] = v` on an insertion-ordered object: an
existing key keeps its position and is overwritten, a new key is appended. -/
def objSet {α : Type} (r : List (String × α)) (k : String) (v : α) :
    List (String × α) :=
  if r.any (fun p => p.1 = k) then
    r.map (fun p => if p.1 = k then (k, v) else p)
  else r ++ [(k, v)]

/-! ## FilterEvaluator (`applyFilter`, `src/lib/utils.js` lines 40-136) -/

/-- A node of the recursive filter tree: `{type:'group', logic, children}`
or `{type:'condition', field, operator, value}`.  The `field` is an
`Option String` so that an absent (`undefined`) field is representable. -/
inductive FilterNode where
  | group : String → List FilterNode → FilterNode
  | condition : Option String → String → Value → FilterNode

/-- `String(v ?? '')`: nullish values become the empty string. -/
def strOrEmpty : Value → String
  | .null => ""
  | .undefined => ""
  | .str s => s

/-- The datetime section of `applyFilter` (its lines 123-131): both sides
are parsed with `new Date(...)` — modelled by the oracle `jsDateOf`, which
returns the timestamp of a valid date and `none` for an invalid one — and
compared when both are valid and neither operand is the empty string. -/
def dateCompare (jsDateOf : Value → Option ℤ) (rowValue value : Value)
    (operator : String) : Bool :=
  match jsDateOf rowValue, jsDateOf value with
  | some a, some b =>
    if !(rowValue == Value.str "") && !(value == Value.str "") then
      if operator = "is before" then decide (a < b)
      else if operator = "is after" then decide (b < a)
      else false
    else false
  | _, _ => false

/-- The numeric comparison table of `applyFilter` (its lines 115-120),
reached only under the numeric guard; any other operator falls through to
the datetime section. -/
def numericCompare (jsDateOf : Value → Option ℤ) (rowValue value : Value)
    (operator : String) (numA numB : JSNum) : Bool :=
  if operator = "=" then numA.eqb numB
  else if operator = "≠" then !numA.eqb numB
  else if operator = ">" then numB.ltb numA
  else if operator = "<" then numA.ltb numB
  else if operator = "≥" then numB.leb numA
  else if operator = "≤" then numA.leb numB
  else dateCompare jsDateOf rowValue value operator

/-- The condition branch of `applyFilter` (`src/lib/utils.js` lines 53-133).
`jsRegexTest pattern text insensitive` is an oracle for
`new RegExp(pattern, flags).test(text)` with invalid-pattern failure folded
in (the `regexp` branch returns whatever the oracle says; no claim
constrains it).  An absent field reads `row['undefined']` (JavaScript
coerces an `undefined` property key to the string `"undefined"`). -/
def evalCondition (jsRegexTest : String → String → Bool → Bool)
    (jsDateOf : Value → Option ℤ) (row : Row) (field : Option String)
    (operator : String) (value : Value) (isCaseSensitive : Bool) : Bool :=
  let rowValue := objGet row (match field with | some f => f | none => "undefined")
  if operator = "is empty" then isBlank rowValue
  else if operator = "is not empty" then !isBlank rowValue
  else if (match field with | none => true | some f => f = "") then true
  else
    let strA := strOrEmpty rowValue
    let strB := strOrEmpty value
    let valA := if isCaseSensitive then strA else jsLower strA
    let valB := if isCaseSensitive then strB else jsLower strB
    if operator = "is" then valA == valB
    else if operator = "is not" then valA != valB
    else if operator = "contains" then strIncludes valA valB
    else if operator = "does not contain" then !strIncludes valA valB
    else if operator = "startswith" then jsStartsWith valA valB
    else if operator = "endswith" then jsEndsWith valA valB
    else if operator = "in" then
      let options := (jsSplitComma strB).map jsTrim
      let finalOptions := if isCaseSensitive then options else options.map jsLower
      finalOptions.contains valA
    else if operator = "not in" then
      let options := (jsSplitComma strB).map jsTrim
      let finalOptions := if isCaseSensitive then options else options.map jsLower
      !finalOptions.contains valA
    else if operator = "regexp" then jsRegexTest strB strA isCaseSensitive
    else
      let numA := jsToNumber rowValue
      let numB := jsToNumber value
      if !numA.isNaN && !numB.isNaN && !(rowValue == Value.str "") &&
          !(value == Value.str "") then
        numericCompare jsDateOf rowValue value operator numA numB
      else dateCompare jsDateOf rowValue value operator

/-- `applyFilter(row, filterNode, isCaseSensitive)`: recursive evaluation of
the filter tree.  A group with no children is vacuously true; `AND` takes
the conjunction and anything else the disjunction of the children. -/
def applyFilter (jsRegexTest : String → String → Bool → Bool)
    (jsDateOf : Value → Option ℤ) (row : Row) (node : FilterNode)
    (isCaseSensitive : Bool) : Bool :=
  match node with
  | .group logic children =>
    if children.length = 0 then true
    else
      let results :=
        children.attach.map
          (fun c => applyFilter jsRegexTest jsDateOf row c.1 isCaseSensitive)
      if logic = "AND" then results.all id else results.any id
  | .condition field operator value =>
    evalCondition jsRegexTest jsDateOf row field operator value isCaseSensitive
termination_by node
decreasing_by
  exact Nat.lt_trans (List.sizeOf_lt_of_mem c.2) (by simp_arith)

/-- The comparison table of the six numeric operators. -/
def numericOpResult (op : String) (a b : JSNum) : Bool :=
  if op = "=" then a.eqb b
  else if op = "≠" then !a.eqb b
  else if op = ">" then b.ltb a
  else if op = "<" then a.ltb b
  else if op = "≥" then b.leb a
  else if op = "≤" then a.leb b
  else false

/-- The datetime section ignores every operator other than `is before` and
`is after`. -/
theorem dateCompare_of_not_date_op (jsDateOf : Value → Option ℤ)
    (a b : Value) (op : String) (h1 : op ≠ "is before") (h2 : op ≠ "is after") :
    dateCompare jsDateOf a b op = false := by
  unfold dateCompare
  cases jsDateOf a <;> cases jsDateOf b <;> simp [h1, h2]

/-- Claim C4, counterexample: the row value `null` is blank, yet the
numeric condition `= 0` evaluates to `true` on it (JavaScript
`Number(null)` is `0`), contradicting the claim that a blank side always
makes a numeric condition false. -/
theorem numericOperator_blank_counterexample :
    applyFilter (fun _ _ _ => false) (fun _ => none) [("a", Value.null)]
      (.condition (some "a") "=" (Value.str "0")) false = true ∧
    isBlank (objGet [("a", Value.null)] "a") = true := by
  constructor
  · simp only [applyFilter]
    with_unfolding_all decide
  · with_unfolding_all decide

/-- Claim C4 (amended): for the six numeric operators, `applyFilter`
evaluates the JavaScript numeric comparison exactly when `Number` of both
sides is non-`NaN` and neither side is the literal empty string, and
evaluates to `false` otherwise.  Blankness is not the criterion: `null` and
white-space-only strings coerce to `0` and can compare truthfully, and
non-finite `Infinity` values participate in the comparison. -/
theorem numericOperator_guard_semantics
    (jsRegexTest : String → String → Bool → Bool) (jsDateOf : Value → Option ℤ)
    (row : Row) (f : String) (op : String) (value : Value) (cs : Bool)
    (hf : f ≠ "")
    (hop : op = "=" ∨ op = "≠" ∨ op = ">" ∨ op = "<" ∨ op = "≥" ∨ op = "≤") :
    applyFilter jsRegexTest jsDateOf row (.condition (some f) op value) cs =
      (if !(jsToNumber (objGet row f)).isNaN && !(jsToNumber value).isNaN &&
          !(objGet row f == Value.str "") && !(value == Value.str "") then
        numericOpResult op (jsToNumber (objGet row f)) (jsToNumber value)
      else false) := by
  have hdc : dateCompare jsDateOf (objGet row f) value op = false := by
    rcases hop with h | h | h | h | h | h <;> subst h <;>
      exact dateCompare_of_not_date_op _ _ _ _ (by decide) (by decide)
  rcases hop with h | h | h | h | h | h <;> subst h <;>
    simp [applyFilter, evalCondition, numericCompare, numericOpResult, hf, hdc]

/-- Witness for `numericOperator_guard_semantics` at a concrete input: row
value `"7"`, operator `>`, comparison value `"5"`. -/
theorem numericOperator_guard_semantics_witness :
    ("x" : String) ≠ "" ∧
    applyFilter (fun _ _ _ => false) (fun _ => none) [("x", Value.str "7")]
        (.condition (some "x") ">" (Value.str "5")) false =
      (if !(jsToNumber (objGet [("x", Value.str "7")] "x")).isNaN &&
          !(jsToNumber (Value.str "5")).isNaN &&
          !(objGet [("x", Value.str "7")] "x" == Value.str "") &&
          !(Value.str "5" == Value.str "") then
        numericOpResult ">" (jsToNumber (objGet [("x", Value.str "7")] "x"))
          (jsToNumber (Value.str "5"))
      else false) :=
  ⟨by decide,
   numericOperator_guard_semantics (fun _ _ _ => false) (fun _ => none)
     [("x", Value.str "7")] "x" ">" (Value.str "5") false (by decide)
     (Or.inr (Or.inr (Or.inl rfl)))⟩

/-- Claim C10: a condition whose field is absent or empty, under any
operator other than `is empty` and `is not empty`, matches every row. -/
theorem incompleteCondition_matches_all
    (jsRegexTest : String → String → Bool → Bool) (jsDateOf : Value → Option ℤ)
    (row : Row) (field : Option String) (op : String) (value : Value) (cs : Bool)
    (hfield : field = none ∨ field = some "")
    (h1 : op ≠ "is empty") (h2 : op ≠ "is not empty") :
    applyFilter jsRegexTest jsDateOf row (.condition field op value) cs = true := by
  rcases hfield with h | h <;> subst h <;>
    simp [applyFilter, evalCondition, h1, h2]

/-- Witness for `incompleteCondition_matches_all`: an empty-field `is`
condition matches a concrete row. -/
theorem incompleteCondition_matches_all_witness :
    (some "" : Option String) = some "" ∧ ("is" : String) ≠ "is empty" ∧
    applyFilter (fun _ _ _ => false) (fun _ => none) [("x", Value.str "1")]
      (.condition (some "") "is" (Value.str "zzz")) true = true :=
  ⟨rfl, by decide,
   incompleteCondition_matches_all (fun _ _ _ => false) (fun _ => none)
     [("x", Value.str "1")] (some "") "is" (Value.str "zzz") true
     (Or.inr rfl) (by decide) (by decide)⟩

/-! ## JoinEngine (`performJoin`, `src/lib/utils.js` lines 144-251) -/

/-- A loaded table: `{ data: [...], types: {...} }`. -/
structure Table where
  data : List Row
  types : List (String × String)
deriving DecidableEq, Repr

/-- A join definition from the join configuration dialog:
`{ leftTable, leftColumn, rightTable, rightColumn, joinType }`.  The
`joinType` field is carried by the configuration UI. -/
structure JoinSpec where
  leftTable : String
  leftColumn : String
  rightTable : String
  rightColumn : String
  joinType : String
deriving DecidableEq, Repr

/-- The value returned by `performJoin`:
`{ data: Array, types: Object, columns: Array }`. -/
structure JoinResult where
  data : List Row
  types : List (String × String)
  columns : List String
deriving DecidableEq, Repr

/-- The empty join result `{ data: [], types: {}, columns: [] }`. -/
def emptyJoinResult : JoinResult := ⟨[], [], []⟩

/-- The tables map `{ tableName: Table }`, an object keyed by table name. -/
abbrev TablesMap := List (String × Table)

/-- Lookup `tables[name]` (`undefined`, i.e. `none`, when absent). -/
def lookupTable (tables : TablesMap) (name : String) : Option Table :=
  (tables.find? (fun p => p.1 = name)).map Prod.snd

/-- `Object.keys(tables).length` (object keys are unique). -/
def tableKeyCount (tables : TablesMap) : ℕ :=
  ((tables.map Prod.fst).dedup).length

/-- The hash key of a row for a join column:
`String(row[col] ?? '').toLowerCase()`. -/
def joinKey (r : Row) (col : String) : String :=
  jsLower (strOrEmpty (objGet r col))

/-- Copy every entry of `src` into `dst` under keys prefixed with
`tbl + "."`, in entry order (the `Object.entries(...).forEach` loops of
`performJoin`). -/
def addPrefixed (tbl : String) (dst : Row) (src : Row) : Row :=
  src.foldl (fun acc p => objSet acc (tbl ++ "." ++ p.1) p.2) dst

/-- Build the combined row of the first join stage: left columns prefixed
with the left table's name, then right columns prefixed with the right
table's name. -/
def combineFirst (j : JoinSpec) (l r : Row) : Row :=
  addPrefixed j.rightTable (addPrefixed j.leftTable [] l) r

/-- One subsequent join stage (the `for (let i = 1; ...)` loop body): a
missing right table skips the stage (`continue`); otherwise each running
row is matched, via the hash index on the next table's join column,
against the rows with the same key, and each match appends the prefixed
columns of the matching row.  The index lookup `nextIndex[key] || []`
returns exactly the rows of the next table whose key equals `key`, in
order. -/
def stageJoin (tables : TablesMap) (result : List Row) (j : JoinSpec) :
    List Row :=
  match lookupTable tables j.rightTable with
  | none => result
  | some nt =>
    result.flatMap (fun rrow =>
      let leftColName :=
        if j.leftColumn.toList.contains '.' then j.leftColumn
        else j.leftTable ++ "." ++ j.leftColumn
      let key := joinKey rrow leftColName
      (nt.data.filter (fun nr => joinKey nr j.rightColumn = key)).map
        (fun nr => addPrefixed j.rightTable rrow nr))

/-- The `types` object built at the end of `performJoin`: for every join,
the left table's column types under the left prefix, then the right
table's under the right prefix (later writes overwrite earlier ones). -/
def buildJoinTypes (tables : TablesMap) (joins : List JoinSpec) :
    List (String × String) :=
  joins.foldl (fun acc j =>
    let leftTypes := ((lookupTable tables j.leftTable).map Table.types).getD []
    let rightTypes := ((lookupTable tables j.rightTable).map Table.types).getD []
    let acc1 := leftTypes.foldl
      (fun a p => objSet a (j.leftTable ++ "." ++ p.1) p.2) acc
    rightTypes.foldl
      (fun a p => objSet a (j.rightTable ++ "." ++ p.1) p.2) acc1) []

/-- `performJoin(tables, joins)`.  Guard: no joins, or fewer than two
tables, or a missing table in the first join, each yield the empty result.
The first join hash-indexes the right table by lower-cased string key and
emits one combined row per matching pair (an inner join — the `joinType`
field of the `JoinSpec` is never consulted); subsequent joins fold
`stageJoin` over the running result.  Output columns are the keys of the
first combined row. -/
def performJoin (tables : TablesMap) (joins : List JoinSpec) : JoinResult :=
  if joins.length = 0 ∨ tableKeyCount tables < 2 then emptyJoinResult
  else
    match joins with
    | [] => emptyJoinResult
    | j0 :: rest =>
      match lookupTable tables j0.leftTable, lookupTable tables j0.rightTable with
      | some lt, some rt =>
        let firstResult := lt.data.flatMap (fun l =>
          (rt.data.filter
            (fun r => joinKey r j0.rightColumn = joinKey l j0.leftColumn)).map
            (combineFirst j0 l))
        let finalResult := rest.foldl (stageJoin tables) firstResult
        ⟨finalResult, buildJoinTypes tables joins,
         match finalResult with
         | [] => []
         | r :: _ => r.map Prod.fst⟩
      | _, _ => emptyJoinResult

/-- Helper: with both tables present and at least two tables loaded, a
single-join `performJoin` emits, per left row, one combined row for every
right row with the same (lower-cased, stringified) key. -/
theorem performJoin_single_data (tables : TablesMap) (j : JoinSpec)
    (lt rt : Table) (h1 : lookupTable tables j.leftTable = some lt)
    (h2 : lookupTable tables j.rightTable = some rt)
    (h3 : 2 ≤ tableKeyCount tables) :
    (performJoin tables [j]).data = lt.data.flatMap (fun l =>
      (rt.data.filter
        (fun r => joinKey r j.rightColumn = joinKey l j.leftColumn)).map
        (combineFirst j l)) := by
  have hg : ¬(([j] : List JoinSpec).length = 0 ∨ tableKeyCount tables < 2) := by
    rintro (h | h)
    · simp at h
    · omega
  unfold performJoin
  rw [if_neg hg]
  simp [h1, h2]

/-- Helper: the sum of a map that is constantly `1` on the list is the
list's length. -/
theorem sum_map_eq_length_of_forall_one {α : Type} (l : List α) (g : α → ℕ)
    (h : ∀ x ∈ l, g x = 1) : (l.map g).sum = l.length := by
  induction l with
  | nil => rfl
  | cons a t ih =>
    simp [h a (List.mem_cons_self a t),
      ih (fun x hx => h x (List.mem_cons_of_mem a hx))]
    omega

/-- Two concrete one-row tables whose keys do not match, for the left-join
cardinality counterexample. -/
def tablesLeftJoin : TablesMap :=
  [("A", ⟨[[("id", Value.str "1")]], []⟩), ("B", ⟨[[("id", Value.str "2")]], []⟩)]

/-- Claim C1, counterexample: a `JoinSpec` with `joinType: 'left'` whose
single left row has no match produces zero combined rows, so the output
cardinality is below the left table's row count — unmatched left rows are
not emitted. -/
theorem leftJoin_cardinality_counterexample :
    (performJoin tablesLeftJoin [⟨"A", "id", "B", "id", "left"⟩]).data.length = 0 ∧
    (lookupTable tablesLeftJoin "A").map (fun t => t.data.length) = some 1 := by
  constructor
  · with_unfolding_all decide
  · with_unfolding_all decide

/-- Claim C1 (amended): `performJoin` never consults `joinType` — a
`'left'` join spec produces exactly the inner-join result — and for a
single join (both tables present, at least two tables loaded) the output
length is the sum, over left rows, of the number of key-matching right
rows; unmatched left rows contribute nothing, so the output can be smaller
than the left table. -/
theorem leftJoin_is_innerJoin (tables : TablesMap) (j : JoinSpec)
    (lt rt : Table) (h1 : lookupTable tables j.leftTable = some lt)
    (h2 : lookupTable tables j.rightTable = some rt)
    (h3 : 2 ≤ tableKeyCount tables) :
    performJoin tables [j] = performJoin tables [{ j with joinType := "inner" }] ∧
    (performJoin tables [j]).data.length =
      (lt.data.map (fun l =>
        (rt.data.filter
          (fun r => joinKey r j.rightColumn = joinKey l j.leftColumn)).length)).sum := by
  constructor
  · cases j
    rfl
  · rw [performJoin_single_data tables j lt rt h1 h2 h3]
    rw [List.length_flatMap]
    refine congrArg List.sum (List.map_congr_left (fun l _ => ?_))
    simp

/-- Witness for `leftJoin_is_innerJoin` on `tablesLeftJoin` with
`joinType: 'left'`. -/
theorem leftJoin_is_innerJoin_witness :
    performJoin tablesLeftJoin [⟨"A", "id", "B", "id", "left"⟩] =
      performJoin tablesLeftJoin [⟨"A", "id", "B", "id", "inner"⟩] ∧
    (performJoin tablesLeftJoin [⟨"A", "id", "B", "id", "left"⟩]).data.length =
      ((Table.mk [[("id", Value.str "1")]] []).data.map (fun l =>
        ((Table.mk [[("id", Value.str "2")]] []).data.filter
          (fun r => joinKey r "id" = joinKey l "id")).length)).sum :=
  leftJoin_is_innerJoin tablesLeftJoin ⟨"A", "id", "B", "id", "left"⟩
    ⟨[[("id", Value.str "1")]], []⟩ ⟨[[("id", Value.str "2")]], []⟩
    (by with_unfolding_all decide) (by with_unfolding_all decide)
    (by with_unfolding_all decide)

/-- Concrete tables for the subsequent-missing-table counterexample: the
first join matches one row pair; the second join references the absent
table `C`. -/
def tablesTwoJoins : TablesMap :=
  [("A", ⟨[[("id", Value.str "1")]], []⟩), ("B", ⟨[[("id", Value.str "1")]], []⟩)]

/-- Claim C2, counterexample: the second join references the missing table
`C`, yet `performJoin` does not yield an empty result — the stage is
skipped and the one combined row of the first join survives. -/
theorem missingTable_subsequentJoin_counterexample :
    lookupTable tablesTwoJoins "C" = none ∧
    (performJoin tablesTwoJoins
      [⟨"A", "id", "B", "id", "inner"⟩, ⟨"A", "A.id", "C", "id", "inner"⟩]).data.length
      = 1 := by
  constructor
  · with_unfolding_all decide
  · with_unfolding_all decide

/-- Claim C2 (amended): a missing table (left or right) in the **first**
`JoinSpec` makes `performJoin` yield the empty result
`{data: [], types: {}, columns: []}`; in a **subsequent** `JoinSpec` a
missing right table merely skips that stage, passing the running result
through unchanged (and a missing left table there is never checked). -/
theorem missingTable_join_semantics (tables : TablesMap) (j0 : JoinSpec)
    (rest : List JoinSpec)
    (hmiss : lookupTable tables j0.leftTable = none ∨
      lookupTable tables j0.rightTable = none) :
    performJoin tables (j0 :: rest) = emptyJoinResult ∧
    ∀ (result : List Row) (j : JoinSpec),
      lookupTable tables j.rightTable = none →
      stageJoin tables result j = result := by
  constructor
  · unfold performJoin
    split
    · rfl
    · rcases hmiss with h | h
      · simp [h]
      · cases hl : lookupTable tables j0.leftTable <;> simp [h, hl]
  · intro result j hj
    unfold stageJoin
    rw [hj]

/-- Witness for `missingTable_join_semantics`: the first join of a
two-table map references the missing table `Z`. -/
theorem missingTable_join_semantics_witness :
    performJoin tablesTwoJoins [⟨"Z", "id", "B", "id", "inner"⟩] = emptyJoinResult ∧
    ∀ (result : List Row) (j : JoinSpec),
      lookupTable tablesTwoJoins j.rightTable = none →
      stageJoin tablesTwoJoins result j = result :=
  missingTable_join_semantics tablesTwoJoins ⟨"Z", "id", "B", "id", "inner"⟩ []
    (Or.inl (by with_unfolding_all decide))

/-- A table whose column `c` holds the pairwise-distinct values `"A"` and
`"a"`, which collide under the case-insensitive join key. -/
def tableCaseCollide : Table :=
  ⟨[[("c", Value.str "A")], [("c", Value.str "a")]], []⟩

/-- A two-entry tables map holding `tableCaseCollide` (the second, empty
table only satisfies `performJoin`'s two-table guard). -/
def tablesCaseCollide : TablesMap :=
  [("T", tableCaseCollide), ("U", ⟨[], []⟩)]

/-- Claim C3, counterexample: the column values `"A"` and `"a"` are
pairwise distinct, yet the self inner join of the two-row table produces
four combined rows, not two — the hash key is the lower-cased value, so
distinct values can still collide. -/
theorem selfJoin_unique_counterexample :
    (tableCaseCollide.data.map (fun r => objGet r "c")).Nodup ∧
    tableCaseCollide.data.length = 2 ∧
    (performJoin tablesCaseCollide [⟨"T", "c", "T", "c", "inner"⟩]).data.length
      = 4 := by
  refine ⟨by decide, by decide, ?_⟩
  with_unfolding_all decide

/-- Claim C3 (amended): when the tables map has at least two entries and
the **join keys** (lower-cased string forms) of column `c` are pairwise
distinct, the self inner join of `T` on `c` produces exactly `|T|`
combined rows. -/
theorem selfJoin_unique_keys (tables : TablesMap) (name c : String)
    (T : Table) (h1 : lookupTable tables name = some T)
    (h2 : 2 ≤ tableKeyCount tables)
    (h3 : (T.data.map (fun r => joinKey r c)).Nodup) :
    (performJoin tables [⟨name, c, name, c, "inner"⟩]).data.length
      = T.data.length := by
  have hd := performJoin_single_data tables ⟨name, c, name, c, "inner"⟩ T T h1 h1 h2
  rw [hd, List.length_flatMap]
  refine sum_map_eq_length_of_forall_one _ _ (fun l hl => ?_)
  have hcount : (T.data.filter (fun r => joinKey r c = joinKey l c)).length
      = (T.data.map (fun r => joinKey r c)).count (joinKey l c) := by
    rw [← List.countP_eq_length_filter, List.count_eq_countP, List.countP_map]
    refine List.countP_congr (fun r _ => ?_)
    simp [Function.comp]
  simp only [Function.comp, List.length_map]
  rw [hcount, List.count_eq_one_of_mem h3 (List.mem_map_of_mem _ hl)]

/-- Witness for `selfJoin_unique_keys`: a two-row table with distinct keys
self-joins to exactly two rows. -/
theorem selfJoin_unique_keys_witness :
    (performJoin [("T", ⟨[[("c", Value.str "x")], [("c", Value.str "y")]], []⟩),
        ("U", ⟨[], []⟩)] [⟨"T", "c", "T", "c", "inner"⟩]).data.length
      = (Table.mk [[("c", Value.str "x")], [("c", Value.str "y")]] []).data.length :=
  selfJoin_unique_keys
    [("T", ⟨[[("c", Value.str "x")], [("c", Value.str "y")]], []⟩), ("U", ⟨[], []⟩)]
    "T" "c" ⟨[[("c", Value.str "x")], [("c", Value.str "y")]], []⟩
    (by with_unfolding_all decide) (by with_unfolding_all decide)
    (by with_unfolding_all decide)

/-- Claim C5: two rows whose join keys are both the empty string (an empty
or nullish cell) are treated as matching — their combined row appears in
the join output, exactly as for a shared real key. -/
theorem emptyStringKeys_match (tables : TablesMap) (j : JoinSpec)
    (lt rt : Table) (h1 : lookupTable tables j.leftTable = some lt)
    (h2 : lookupTable tables j.rightTable = some rt)
    (h3 : 2 ≤ tableKeyCount tables) (l r : Row)
    (hl : l ∈ lt.data) (hr : r ∈ rt.data)
    (hkl : joinKey l j.leftColumn = "") (hkr : joinKey r j.rightColumn = "") :
    combineFirst j l r ∈ (performJoin tables [j]).data := by
  rw [performJoin_single_data tables j lt rt h1 h2 h3]
  refine List.mem_flatMap.mpr ⟨l, hl, ?_⟩
  exact List.mem_map_of_mem _ (List.mem_filter.mpr ⟨hr, by simp [hkl, hkr]⟩)

/-- Witness for `emptyStringKeys_match`: a left row with an empty-string
cell joins against a right row with a `null` cell (both keys are `""`). -/
theorem emptyStringKeys_match_witness :
    joinKey [("k", Value.str "")] "k" = "" ∧
    joinKey [("k", Value.null)] "k" = "" ∧
    combineFirst ⟨"L", "k", "R", "k", "inner"⟩ [("k", Value.str "")]
        [("k", Value.null)] ∈
      (performJoin [("L", ⟨[[("k", Value.str "")]], []⟩),
          ("R", ⟨[[("k", Value.null)]], []⟩)]
        [⟨"L", "k", "R", "k", "inner"⟩]).data :=
  ⟨by with_unfolding_all decide, by with_unfolding_all decide,
   emptyStringKeys_match
     [("L", ⟨[[("k", Value.str "")]], []⟩), ("R", ⟨[[("k", Value.null)]], []⟩)]
     ⟨"L", "k", "R", "k", "inner"⟩ ⟨[[("k", Value.str "")]], []⟩
     ⟨[[("k", Value.null)]], []⟩ (by with_unfolding_all decide)
     (by with_unfolding_all decide) (by with_unfolding_all decide)
     [("k", Value.str "")] [("k", Value.null)] (by decide) (by decide)
     (by with_unfolding_all decide) (by with_unfolding_all decide)⟩

/-! ## AggregationEngine (`createPivotData`, premium utils lines 727-797) -/

/-- Insertion-order deduplication worker (`new Set(...)` keeps the first
occurrence of each element). -/
def dedupFirstAux {α : Type} [DecidableEq α] (seen : List α) : List α → List α
  | [] => []
  | x :: xs =>
    if x ∈ seen then dedupFirstAux seen xs
    else x :: dedupFirstAux (x :: seen) xs

/-- `[...new Set(l)]`: the distinct elements of `l` in first-occurrence
order. -/
def dedupFirst {α : Type} [DecidableEq α] (l : List α) : List α :=
  dedupFirstAux [] l

/-- Insert a string into a sorted list (worker for `sortStrs`). -/
def insertSortedStr (x : String) : List String → List String
  | [] => [x]
  | y :: ys => if jsStrLtb y x then y :: insertSortedStr x ys else x :: y :: ys

/-- JavaScript default `Array.sort()` on a list of (distinct) strings:
lexicographic by code unit.  Insertion sort produces the same output as any
correct sort on the duplicate-free key lists it is applied to. -/
def sortStrs (l : List String) : List String := l.foldr insertSortedStr []

/-- The pivot grouping key of a row for a field:
`row[field] ?? '(Empty)'` (a missing or nullish cell groups under the
literal `(Empty)`). -/
def pivotKey (row : Row) (field : String) : String :=
  match objGet row field with
  | .null => "(Empty)"
  | .undefined => "(Empty)"
  | .str s => s

/-- The pivot configuration `{rowField, columnField?, valueField?, aggFunc}`
(`aggFunc` defaults to `'sum'` at the call site). -/
structure PivotConfig where
  rowField : String
  columnField : Option String
  valueField : Option String
  aggFunc : String

/-- The raw per-row cell value before coercion:
`valueField ? row[valueField] : 1` — either the looked-up scalar or the
literal number `1`. -/
def cellRaw (vf : Option String) (row : Row) : Sum Value Unit :=
  if (vf.getD "") = "" then .inr () else .inl (objGet row (vf.getD ""))

/-- The blank filter `v !== null && v !== undefined && v !== ''` applied to
the raw cell values (the number `1` always passes). -/
def rawPasses : Sum Value Unit → Bool
  | .inl v => !(v == Value.null) && !(v == Value.undefined) && !(v == Value.str "")
  | .inr _ => true

/-- The coercion `isNaN(Number(v)) ? 0 : Number(v)` (and `Number(1) = 1`
for the counting placeholder). -/
def rawCoerce : Sum Value Unit → JSNum
  | .inl v =>
    match jsToNumber v with
    | .nan => .val 0
    | x => x
  | .inr _ => .val 1

/-- The coerced numeric values of a list of rows:
`rows.map(raw).filter(nonblank).map(coerce)`. -/
def pivotValues (vf : Option String) (rows : List Row) : List JSNum :=
  (((rows.map (cellRaw vf)).filter rawPasses).map rawCoerce)

/-- The `AGGREGATION_FUNCTIONS` table (an unknown name falls back to
`sum`).  `Math.min()`/`Math.max()` over the spread argument list are folded
from `Infinity`/`-Infinity`. -/
def applyAgg (aggFunc : String) (values : List JSNum) : JSNum :=
  if aggFunc = "sum" then jsSum values
  else if aggFunc = "avg" then
    if values.length ≠ 0 then (jsSum values).divC values.length else .val 0
  else if aggFunc = "count" then .val values.length
  else if aggFunc = "min" then
    if values.length ≠ 0 then values.foldl JSNum.minOp .posInf else .val 0
  else if aggFunc = "max" then
    if values.length ≠ 0 then values.foldl JSNum.maxOp .negInf else .val 0
  else if aggFunc = "countDistinct" then .val (dedupFirst values).length
  else jsSum values

/-- JavaScript `x || 0` on a number (`0` and `NaN` are falsy). -/
def jsOrZero (x : JSNum) : JSNum :=
  if x = .val 0 ∨ x = .nan then .val 0 else x

/-- The value produced by `createPivotData`: the sorted distinct row and
column keys, and the (rounded) cell, row-total, column-total and
grand-total numbers, with the object lookups modelled as functions. -/
structure PivotResult where
  rows : List String
  cols : List String
  cell : String → String → JSNum
  rowTotal : String → JSNum
  colTotal : String → JSNum
  grand : JSNum

/-- Truthiness of the optional `columnField` (`columnField ? ... : ...`). -/
def pivotColActive (cfg : PivotConfig) : Bool :=
  !((cfg.columnField.getD "") == "")

/-- `uniqueRows`: the sorted distinct `row[rowField] ?? '(Empty)'` values. -/
def pivotUniqueRows (data : List Row) (cfg : PivotConfig) : List String :=
  sortStrs (dedupFirst (data.map (fun r => pivotKey r cfg.rowField)))

/-- `uniqueCols`: the sorted distinct `row[columnField] ?? '(Empty)'` values
when a column field is set, else the single synthetic column `'Total'`. -/
def pivotUniqueCols (data : List Row) (cfg : PivotConfig) : List String :=
  if pivotColActive cfg then
    sortStrs (dedupFirst (data.map (fun r => pivotKey r (cfg.columnField.getD ""))))
  else ["Total"]

/-- The cell membership predicate
`matchRow && (!columnField || matchCol)`. -/
def pivotCellMatch (cfg : PivotConfig) (rk ck : String) (row : Row) : Bool :=
  pivotKey row cfg.rowField == rk &&
    (!pivotColActive cfg || pivotKey row (cfg.columnField.getD "") == ck)

/-- The coerced value list of one pivot cell (the `values` constant of the
cell loop). -/
def pivotCellValues (data : List Row) (cfg : PivotConfig) (rk ck : String) :
    List JSNum :=
  pivotValues cfg.valueField (data.filter (pivotCellMatch cfg rk ck))

/-- One pivot cell: filter the rows matching both keys, coerce the values,
apply the aggregator on a nonempty value list (else `0`), round to two
decimals. -/
def pivotCell (data : List Row) (cfg : PivotConfig) (rk ck : String) : JSNum :=
  round2 (if 0 < (pivotCellValues data cfg rk ck).length
    then applyAgg cfg.aggFunc (pivotCellValues data cfg rk ck) else .val 0)

/-- `totals.row[rowVal]`: the rounded sum of the row's (rounded) cells
across all columns. -/
def pivotRowTotal (data : List Row) (cfg : PivotConfig) (rk : String) : JSNum :=
  round2 (jsSum ((pivotUniqueCols data cfg).map (pivotCell data cfg rk)))

/-- `totals.column[colVal]`: the rounded sum of `cell || 0` down all rows. -/
def pivotColTotal (data : List Row) (cfg : PivotConfig) (ck : String) : JSNum :=
  round2 (jsSum
    ((pivotUniqueRows data cfg).map (fun rk => jsOrZero (pivotCell data cfg rk ck))))

/-- `createPivotData(data, config)`.  The guard (`!rowField || !data ||
data.length === 0`) returns the degenerate empty object, modelled as
`none`; otherwise the row/column keys, cells and totals above, with the
grand total the rounded sum of the row totals. -/
def createPivotData (data : List Row) (cfg : PivotConfig) :
    Option PivotResult :=
  if cfg.rowField = "" ∨ data = [] then none
  else some
    { rows := pivotUniqueRows data cfg
      cols := pivotUniqueCols data cfg
      cell := pivotCell data cfg
      rowTotal := pivotRowTotal data cfg
      colTotal := pivotColTotal data cfg
      grand := round2 (jsSum
        ((pivotUniqueRows data cfg).map (pivotRowTotal data cfg))) }

/-- Two rows both holding `0.004`, in different row groups, for the pivot
rounding counterexample. -/
def pivotRowsTiny : List Row :=
  [[("g", Value.str "a"), ("v", Value.str "0.004")],
   [("g", Value.str "b"), ("v", Value.str "0.004")]]

/-- Claim C6, counterexample: with `rowField 'g'`, `valueField 'v'` and the
default `sum` aggregator, each `0.004` cell rounds to `0`, so the grand
total is `0` — but the sum of `valueField` over the entire table is
`0.008`.  Per-cell rounding breaks the claimed equality. -/
theorem pivot_grandTotal_counterexample :
    ((createPivotData pivotRowsTiny ⟨"g", none, some "v", "sum"⟩).map
      PivotResult.grand) = some (.val 0) ∧
    jsSum (pivotValues (some "v") pivotRowsTiny) = .val (1/125) ∧
    (JSNum.val 0 : JSNum) ≠ .val (1/125) := by
  refine ⟨?_, ?_, ?_⟩ <;> with_unfolding_all decide

/-- Helper: sums of pointwise sums of maps split. -/
theorem sum_map_add {α : Type} (l : List α) (f g : α → ℚ) :
    (l.map (fun x => f x + g x)).sum = (l.map f).sum + (l.map g).sum := by
  induction l with
  | nil => simp
  | cons a t ih => simp [ih]; ring

/-- Helper: summing an indicator of a single key over a duplicate-free list
containing it yields the indicated value. -/
theorem sum_map_ite_single (ks : List String) (a : String) (c : ℚ)
    (hnd : ks.Nodup) (ha : a ∈ ks) :
    (ks.map (fun k => if a = k then c else 0)).sum = c := by
  induction ks with
  | nil => cases ha
  | cons k t ih =>
    rcases List.mem_cons.mp ha with rfl | hat
    · have hnt : a ∉ t := (List.nodup_cons.mp hnd).1
      have hz : (t.map (fun k => if a = k then c else 0)).sum = 0 := by
        refine List.sum_eq_zero (fun x hx => ?_)
        rcases List.mem_map.mp hx with ⟨k, hk, rfl⟩
        have : a ≠ k := fun h => hnt (h ▸ hk)
        simp [this]
      simp [hz]
    · have hk : a ≠ k := by
        rintro rfl
        exact (List.nodup_cons.mp hnd).1 hat
      simp [hk, ih (List.nodup_cons.mp hnd).2 hat]

/-- Helper: a sum over a list splits into the sums over the fibres of a key
function, provided the key list is duplicate-free and complete. -/
theorem sum_filter_partition {α : Type} (l : List α) (key : α → String)
    (ks : List String) (hnd : ks.Nodup) (hmem : ∀ x ∈ l, key x ∈ ks)
    (v : α → ℚ) :
    (ks.map (fun k => ((l.filter (fun x => key x == k)).map v).sum)).sum
      = (l.map v).sum := by
  induction l with
  | nil => simp
  | cons x t ih =>
    have hx := hmem x (List.mem_cons_self x t)
    have ht : ∀ y ∈ t, key y ∈ ks := fun y hy => hmem y (List.mem_cons_of_mem x hy)
    have expand : ∀ k, ((List.filter (fun y => key y == k) (x :: t)).map v).sum
        = (if key x = k then v x else 0)
          + ((t.filter (fun y => key y == k)).map v).sum := by
      intro k
      by_cases h : key x = k
      · simp [List.filter_cons, h]
      · simp [List.filter_cons, h]
    calc (ks.map fun k => ((List.filter (fun y => key y == k) (x :: t)).map v).sum).sum
        = (ks.map fun k => (if key x = k then v x else 0)
            + ((t.filter (fun y => key y == k)).map v).sum).sum :=
          congrArg List.sum (List.map_congr_left (fun k _ => expand k))
      _ = (ks.map fun k => if key x = k then v x else 0).sum
            + (ks.map fun k => ((t.filter (fun y => key y == k)).map v).sum).sum :=
          sum_map_add ks _ _
      _ = v x + (t.map v).sum := by
          rw [sum_map_ite_single ks (key x) (v x) hnd hx, ih ht]
      _ = ((x :: t).map v).sum := by simp

/-- Helper: membership in the insertion-order deduplication worker. -/
theorem mem_dedupFirstAux {α : Type} [DecidableEq α] (l : List α) :
    ∀ (seen : List α) (x : α),
      x ∈ dedupFirstAux seen l ↔ x ∈ l ∧ x ∉ seen := by
  induction l with
  | nil => intro seen x; simp [dedupFirstAux]
  | cons a t ih =>
    intro seen x
    by_cases h : a ∈ seen
    · rw [dedupFirstAux, if_pos h, ih]
      constructor
      · rintro ⟨hx, hs⟩
        exact ⟨List.mem_cons_of_mem a hx, hs⟩
      · rintro ⟨hx, hs⟩
        rcases List.mem_cons.mp hx with rfl | hx2
        · exact absurd h hs
        · exact ⟨hx2, hs⟩
    · rw [dedupFirstAux, if_neg h]
      constructor
      · intro hx
        rcases List.mem_cons.mp hx with rfl | hx2
        · exact ⟨List.mem_cons_self x t, h⟩
        · obtain ⟨h1, h2⟩ := (ih (a :: seen) x).mp hx2
          exact ⟨List.mem_cons_of_mem a h1,
            fun hs => h2 (List.mem_cons_of_mem a hs)⟩
      · rintro ⟨hx, hs⟩
        rcases List.mem_cons.mp hx with rfl | hx2
        · exact List.mem_cons_self x _
        · by_cases hxa : x = a
          · subst hxa; exact List.mem_cons_self x _
          · refine List.mem_cons_of_mem _ ((ih (a :: seen) x).mpr ⟨hx2, ?_⟩)
            intro hm
            rcases List.mem_cons.mp hm with h1 | h1
            · exact hxa h1
            · exact hs h1

/-- Helper: the insertion-order deduplication worker returns a
duplicate-free list. -/
theorem nodup_dedupFirstAux {α : Type} [DecidableEq α] (l : List α) :
    ∀ seen : List α, (dedupFirstAux seen l).Nodup := by
  induction l with
  | nil => intro seen; exact List.nodup_nil
  | cons a t ih =>
    intro seen
    by_cases h : a ∈ seen
    · rw [dedupFirstAux, if_pos h]; exact ih seen
    · rw [dedupFirstAux, if_neg h]
      refine List.nodup_cons.mpr ⟨fun hmem => ?_, ih (a :: seen)⟩
      exact ((mem_dedupFirstAux t (a :: seen) a).mp hmem).2 (List.mem_cons_self a seen)

/-- Helper: `dedupFirst` keeps exactly the original elements. -/
theorem mem_dedupFirst {α : Type} [DecidableEq α] (l : List α) (x : α) :
    x ∈ dedupFirst l ↔ x ∈ l := by
  simp [dedupFirst, mem_dedupFirstAux]

/-- Helper: `dedupFirst` returns a duplicate-free list. -/
theorem nodup_dedupFirst {α : Type} [DecidableEq α] (l : List α) :
    (dedupFirst l).Nodup := nodup_dedupFirstAux l []

/-- Helper: insertion keeps the multiset of elements. -/
theorem perm_insertSortedStr (x : String) (l : List String) :
    (insertSortedStr x l).Perm (x :: l) := by
  induction l with
  | nil => rfl
  | cons y ys ih =>
    rw [insertSortedStr]
    split
    · exact (ih.cons y).trans (List.Perm.swap x y ys)
    · exact List.Perm.refl _

/-- Helper: sorting keeps the multiset of elements. -/
theorem perm_sortStrs (l : List String) : (sortStrs l).Perm l := by
  induction l with
  | nil => rfl
  | cons a t ih =>
    exact (perm_insertSortedStr a (sortStrs t)).trans (ih.cons a)

/-- Helper: membership survives sorting. -/
theorem mem_sortStrs (l : List String) (x : String) :
    x ∈ sortStrs l ↔ x ∈ l := (perm_sortStrs l).mem_iff

/-- Helper: duplicate-freeness survives sorting. -/
theorem nodup_sortStrs (l : List String) (h : l.Nodup) : (sortStrs l).Nodup :=
  (perm_sortStrs l).nodup_iff.mpr h

/-- A finite value that is an integer number of hundredths — the shape on
which two-decimal rounding is the identity. -/
def isCent (x : JSNum) : Prop := ∃ n : ℤ, x = .val ((n : ℚ) / 100)

/-- Helper: `0` is a whole number of hundredths. -/
theorem isCent_zero : isCent (.val 0) := ⟨0, by norm_num⟩

/-- Helper: sums of hundredths are hundredths. -/
theorem isCent_add {a b : JSNum} (ha : isCent a) (hb : isCent b) :
    isCent (a.add b) := by
  obtain ⟨n, rfl⟩ := ha
  obtain ⟨m, rfl⟩ := hb
  refine ⟨n + m, ?_⟩
  show JSNum.val _ = _
  push_cast
  ring_nf

/-- Helper: folding addition over hundredths stays in hundredths. -/
theorem foldl_add_isCent (l : List JSNum) (h : ∀ x ∈ l, isCent x) :
    ∀ init, isCent init → isCent (l.foldl JSNum.add init) := by
  induction l with
  | nil => intro init hi; exact hi
  | cons a t ih =>
    intro init hi
    exact ih (fun x hx => h x (List.mem_cons_of_mem a hx)) _
      (isCent_add hi (h a (List.mem_cons_self a t)))

/-- Helper: a sum of hundredths is a hundredth. -/
theorem jsSum_isCent (l : List JSNum) (h : ∀ x ∈ l, isCent x) :
    isCent (jsSum l) := foldl_add_isCent l h _ isCent_zero

/-- Helper: two-decimal rounding is the identity on whole hundredths. -/
theorem round2_isCent {x : JSNum} (h : isCent x) : round2 x = x := by
  obtain ⟨n, rfl⟩ := h
  unfold round2
  have h1 : (JSNum.val ((n : ℚ) / 100)).mul (.val 100) = .val n := by
    show JSNum.val _ = _
    norm_num
  rw [h1]
  have h2 : (JSNum.val ((n : ℚ) : ℚ)).round = .val n := by
    show JSNum.val _ = _
    congr 1
    rw [Int.floor_int_add]
    norm_num
  rw [h2]
  show JSNum.val _ = _
  norm_num

/-- The finite part of a JavaScript number (junk `0` on specials). -/
def qOf : JSNum → ℚ
  | .val q => q
  | _ => 0

/-- Helper: folding addition over finite values computes the rational sum. -/
theorem foldl_add_val (l : List JSNum) (h : ∀ x ∈ l, ∃ q : ℚ, x = .val q) :
    ∀ q0 : ℚ, l.foldl JSNum.add (.val q0) = .val (q0 + (l.map qOf).sum) := by
  induction l with
  | nil => intro q0; simp
  | cons a t ih =>
    intro q0
    obtain ⟨qa, ha⟩ := h a (List.mem_cons_self a t)
    rw [List.foldl_cons, ha]
    show t.foldl JSNum.add (JSNum.val (q0 + qa)) = _
    rw [ih (fun x hx => h x (List.mem_cons_of_mem a hx)) (q0 + qa)]
    simp [ha, qOf]
    ring

/-- Helper: a `jsSum` of finite values is the finite rational sum. -/
theorem jsSum_val (l : List JSNum) (h : ∀ x ∈ l, ∃ q : ℚ, x = .val q) :
    jsSum l = .val ((l.map qOf).sum) := by
  have := foldl_add_val l h 0
  simpa [jsSum] using this

/-- The rational contribution of a single row to a pivot cell: its coerced
value when it passes the blank filter, else `0`. -/
def rowContrib (vf : Option String) (row : Row) : ℚ :=
  if rawPasses (cellRaw vf row) then qOf (rawCoerce (cellRaw vf row)) else 0

/-- Helper: the rational sum of the coerced cell values is the sum of the
per-row contributions. -/
theorem pivotValues_sum_eq (vf : Option String) (rows : List Row) :
    ((pivotValues vf rows).map qOf).sum = (rows.map (rowContrib vf)).sum := by
  induction rows with
  | nil => rfl
  | cons r t ih =>
    unfold pivotValues at ih ⊢
    simp only [List.map_cons, List.filter_cons]
    by_cases h : rawPasses (cellRaw vf r)
    · simp only [List.map_map] at ih ⊢
      simp [h, rowContrib, ih]
    · simp only [List.map_map] at ih ⊢
      simp [h, rowContrib, ih]

/-- Helper: coerced values of a filtered row list are among the coerced
values of the full list. -/
theorem mem_pivotValues_of_filter (vf : Option String) (p : Row → Bool)
    (data : List Row) (x : JSNum) (hx : x ∈ pivotValues vf (data.filter p)) :
    x ∈ pivotValues vf data := by
  unfold pivotValues at hx ⊢
  obtain ⟨y, hy, rfl⟩ := List.mem_map.mp hx
  obtain ⟨hy1, hy2⟩ := List.mem_filter.mp hy
  obtain ⟨row, hrow, rfl⟩ := List.mem_map.mp hy1
  have hrow2 : row ∈ data := List.mem_of_mem_filter hrow
  exact List.mem_map.mpr
    ⟨_, List.mem_filter.mpr ⟨List.mem_map.mpr ⟨row, hrow2, rfl⟩, hy2⟩, rfl⟩

/-- Helper: `x || 0` is the identity on finite values. -/
theorem jsOrZero_val (q : ℚ) : jsOrZero (.val q) = .val q := by
  unfold jsOrZero
  split
  · rename_i h
    rcases h with h | h
    · exact h.symm
    · cases h
  · rfl

/-- Helper: under the `sum` aggregator, when every table value is a whole
number of hundredths, each pivot cell is an (unrounded) whole number of
hundredths whose finite part is the sum of the matching rows'
contributions. -/
theorem pivotCell_spec (data : List Row) (cfg : PivotConfig) (rk ck : String)
    (hagg : cfg.aggFunc = "sum")
    (hmul : ∀ x ∈ pivotValues cfg.valueField data, isCent x) :
    isCent (pivotCell data cfg rk ck) ∧
    qOf (pivotCell data cfg rk ck)
      = ((data.filter (pivotCellMatch cfg rk ck)).map
          (rowContrib cfg.valueField)).sum := by
  have hvals : ∀ x ∈ pivotCellValues data cfg rk ck, isCent x := fun x hx =>
    hmul x (mem_pivotValues_of_filter _ _ _ _ hx)
  have hvv : ∀ x ∈ pivotCellValues data cfg rk ck, ∃ q : ℚ, x = .val q := by
    intro x hx
    obtain ⟨n, hn⟩ := hvals x hx
    exact ⟨_, hn⟩
  have hinner : isCent (if 0 < (pivotCellValues data cfg rk ck).length
      then applyAgg cfg.aggFunc (pivotCellValues data cfg rk ck) else .val 0) := by
    split
    · rw [hagg]
      unfold applyAgg
      rw [if_pos rfl]
      exact jsSum_isCent _ hvals
    · exact isCent_zero
  have hcontrib : ((pivotCellValues data cfg rk ck).map qOf).sum
      = ((data.filter (pivotCellMatch cfg rk ck)).map
          (rowContrib cfg.valueField)).sum := pivotValues_sum_eq _ _
  constructor
  · unfold pivotCell
    rw [round2_isCent hinner]
    exact hinner
  · unfold pivotCell
    rw [round2_isCent hinner]
    by_cases hlen : 0 < (pivotCellValues data cfg rk ck).length
    · rw [if_pos hlen, hagg]
      unfold applyAgg
      rw [if_pos rfl, jsSum_val _ hvv]
      exact hcontrib
    · rw [if_neg hlen]
      have hnil : pivotCellValues data cfg rk ck = [] := by
        cases h : pivotCellValues data cfg rk ck with
        | nil => rfl
        | cons a t => rw [h] at hlen; simp at hlen
      rw [hnil] at hcontrib
      simpa [qOf] using hcontrib

/-- The column key of a row: its `columnField` pivot key when a column
field is set, else the synthetic `'Total'`. -/
def pivotColKey (cfg : PivotConfig) (row : Row) : String :=
  if pivotColActive cfg then pivotKey row (cfg.columnField.getD "") else "Total"

/-- Helper: the column-key list is duplicate-free. -/
theorem nodup_pivotUniqueCols (data : List Row) (cfg : PivotConfig) :
    (pivotUniqueCols data cfg).Nodup := by
  unfold pivotUniqueCols
  split
  · exact nodup_sortStrs _ (nodup_dedupFirst _)
  · simp

/-- Helper: the row-key list is duplicate-free. -/
theorem nodup_pivotUniqueRows (data : List Row) (cfg : PivotConfig) :
    (pivotUniqueRows data cfg).Nodup := by
  unfold pivotUniqueRows
  exact nodup_sortStrs _ (nodup_dedupFirst _)

/-- Helper: every data row's column key appears among the column keys. -/
theorem colKey_mem (data : List Row) (cfg : PivotConfig) (row : Row)
    (hrow : row ∈ data) : pivotColKey cfg row ∈ pivotUniqueCols data cfg := by
  unfold pivotColKey pivotUniqueCols
  by_cases h : pivotColActive cfg
  · rw [if_pos h, if_pos h, mem_sortStrs, mem_dedupFirst]
    exact List.mem_map_of_mem _ hrow
  · rw [if_neg h, if_neg h]
    simp

/-- Helper: every data row's row key appears among the row keys. -/
theorem rowKey_mem (data : List Row) (cfg : PivotConfig) (row : Row)
    (hrow : row ∈ data) :
    pivotKey row cfg.rowField ∈ pivotUniqueRows data cfg := by
  unfold pivotUniqueRows
  rw [mem_sortStrs, mem_dedupFirst]
  exact List.mem_map_of_mem _ hrow

/-- Helper: for a column key drawn from the column-key list, the cell
filter factors into a row-key filter followed by a column-key filter. -/
theorem filter_cellMatch (data : List Row) (cfg : PivotConfig) (rk ck : String)
    (hck : ck ∈ pivotUniqueCols data cfg) :
    data.filter (pivotCellMatch cfg rk ck)
      = (data.filter (fun row => pivotKey row cfg.rowField == rk)).filter
          (fun row => pivotColKey cfg row == ck) := by
  rw [List.filter_filter]
  refine (List.filter_congr (fun row _ => ?_)).symm
  unfold pivotCellMatch pivotColKey
  by_cases h : pivotColActive cfg
  · simp [h, Bool.and_comm]
  · have hck2 : ck = "Total" := by
      unfold pivotUniqueCols at hck
      rw [if_neg h] at hck
      simpa using hck
    simp [h, hck2]

/-- Claim C6 (amended): with the `sum` aggregator (the default) and a table
whose coerced values are all whole numbers of hundredths (in particular,
integer data), the pivot's grand total equals the `jsSum` of the coerced
`valueField` (or the constant `1`, i.e. the row count, when `valueField` is
absent) over the **entire** input table — independent of the chosen
`rowField`/`columnField` — and each row total is exactly the sum of that
row's cells across all columns while each column total is exactly the sum
of that column's cells down all rows.  (For general values the per-cell
two-decimal rounding breaks the equality, as the counterexample shows.) -/
theorem pivot_totals_decompose (data : List Row) (cfg : PivotConfig)
    (res : PivotResult) (hrf : cfg.rowField ≠ "") (hne : data ≠ [])
    (hagg : cfg.aggFunc = "sum")
    (hmul : ∀ x ∈ pivotValues cfg.valueField data, isCent x)
    (hres : createPivotData data cfg = some res) :
    res.grand = jsSum (pivotValues cfg.valueField data) ∧
    (∀ rk, res.rowTotal rk = jsSum (res.cols.map (res.cell rk))) ∧
    (∀ ck, res.colTotal ck = jsSum (res.rows.map (fun rk => res.cell rk ck))) := by
  have hguard : ¬(cfg.rowField = "" ∨ data = []) := by
    rintro (h | h)
    · exact hrf h
    · exact hne h
  unfold createPivotData at hres
  rw [if_neg hguard] at hres
  have hres2 : res = PivotResult.mk (pivotUniqueRows data cfg)
      (pivotUniqueCols data cfg) (pivotCell data cfg) (pivotRowTotal data cfg)
      (pivotColTotal data cfg)
      (round2 (jsSum ((pivotUniqueRows data cfg).map (pivotRowTotal data cfg)))) :=
    (Option.some.inj hres).symm
  subst hres2
  have hcellCent : ∀ rk ck, isCent (pivotCell data cfg rk ck) := fun rk ck =>
    (pivotCell_spec data cfg rk ck hagg hmul).1
  have hcellVal : ∀ rk ck, ∃ q : ℚ, pivotCell data cfg rk ck = .val q := by
    intro rk ck
    obtain ⟨n, hn⟩ := hcellCent rk ck
    exact ⟨_, hn⟩
  have hq : ∀ rk ck, qOf (pivotCell data cfg rk ck)
      = ((data.filter (pivotCellMatch cfg rk ck)).map
          (rowContrib cfg.valueField)).sum := fun rk ck =>
    (pivotCell_spec data cfg rk ck hagg hmul).2
  have hrowTotalEq : ∀ rk, pivotRowTotal data cfg rk
      = jsSum ((pivotUniqueCols data cfg).map (pivotCell data cfg rk)) := by
    intro rk
    unfold pivotRowTotal
    refine round2_isCent (jsSum_isCent _ (fun x hx => ?_))
    obtain ⟨ck, _, rfl⟩ := List.mem_map.mp hx
    exact hcellCent rk ck
  have hrowTotalCent : ∀ rk, isCent (pivotRowTotal data cfg rk) := by
    intro rk
    rw [hrowTotalEq rk]
    refine jsSum_isCent _ (fun x hx => ?_)
    obtain ⟨ck, _, rfl⟩ := List.mem_map.mp hx
    exact hcellCent rk ck
  refine ⟨?_, ?_, ?_⟩
  · -- the grand total
    show round2 (jsSum ((pivotUniqueRows data cfg).map (pivotRowTotal data cfg)))
      = jsSum (pivotValues cfg.valueField data)
    have step_ck : ∀ rk, ((pivotUniqueCols data cfg).map
          (fun ck => qOf (pivotCell data cfg rk ck))).sum
        = ((data.filter (fun row => pivotKey row cfg.rowField == rk)).map
            (rowContrib cfg.valueField)).sum := by
      intro rk
      have h1 : ((pivotUniqueCols data cfg).map
            (fun ck => qOf (pivotCell data cfg rk ck))).sum
          = ((pivotUniqueCols data cfg).map (fun ck =>
              (((data.filter (fun row => pivotKey row cfg.rowField == rk)).filter
                (fun row => pivotColKey cfg row == ck)).map
                  (rowContrib cfg.valueField)).sum)).sum := by
        refine congrArg List.sum (List.map_congr_left (fun ck hck => ?_))
        rw [hq rk ck, filter_cellMatch data cfg rk ck hck]
      rw [h1]
      exact sum_filter_partition _ (pivotColKey cfg) _
        (nodup_pivotUniqueCols data cfg)
        (fun row hrow => colKey_mem data cfg row (List.mem_of_mem_filter hrow)) _
    have step_rk : ((pivotUniqueRows data cfg).map (fun rk =>
          ((data.filter (fun row => pivotKey row cfg.rowField == rk)).map
            (rowContrib cfg.valueField)).sum)).sum
        = (data.map (rowContrib cfg.valueField)).sum :=
      sum_filter_partition data (fun row => pivotKey row cfg.rowField) _
        (nodup_pivotUniqueRows data cfg)
        (fun row hrow => rowKey_mem data cfg row hrow) _
    have hgrand1 : round2 (jsSum
          ((pivotUniqueRows data cfg).map (pivotRowTotal data cfg)))
        = jsSum ((pivotUniqueRows data cfg).map (pivotRowTotal data cfg)) :=
      round2_isCent (jsSum_isCent _ (fun x hx => by
        obtain ⟨rk, _, rfl⟩ := List.mem_map.mp hx
        exact hrowTotalCent rk))
    rw [hgrand1]
    have hrowTotalVal : ∀ x ∈ (pivotUniqueRows data cfg).map
        (pivotRowTotal data cfg), ∃ q : ℚ, x = .val q := by
      intro x hx
      obtain ⟨rk, _, rfl⟩ := List.mem_map.mp hx
      obtain ⟨n, hn⟩ := hrowTotalCent rk
      exact ⟨_, hn⟩
    rw [jsSum_val _ hrowTotalVal]
    have htableVal : ∀ x ∈ pivotValues cfg.valueField data, ∃ q : ℚ, x = .val q := by
      intro x hx
      obtain ⟨n, hn⟩ := hmul x hx
      exact ⟨_, hn⟩
    rw [jsSum_val _ htableVal]
    congr 1
    rw [pivotValues_sum_eq]
    rw [← step_rk, List.map_map]
    refine congrArg List.sum (List.map_congr_left (fun rk _ => ?_))
    show qOf (pivotRowTotal data cfg rk) = _
    rw [hrowTotalEq rk]
    have hcellsVal : ∀ x ∈ (pivotUniqueCols data cfg).map (pivotCell data cfg rk),
        ∃ q : ℚ, x = .val q := by
      intro x hx
      obtain ⟨ck, _, rfl⟩ := List.mem_map.mp hx
      exact hcellVal rk ck
    rw [jsSum_val _ hcellsVal]
    show (((pivotUniqueCols data cfg).map (pivotCell data cfg rk)).map qOf).sum = _
    rw [List.map_map]
    exact step_ck rk
  · -- row totals
    intro rk
    exact hrowTotalEq rk
  · -- column totals
    intro ck
    show pivotColTotal data cfg ck = _
    unfold pivotColTotal
    have hmapeq : (pivotUniqueRows data cfg).map
          (fun rk => jsOrZero (pivotCell data cfg rk ck))
        = (pivotUniqueRows data cfg).map (fun rk => pivotCell data cfg rk ck) := by
      refine List.map_congr_left (fun rk _ => ?_)
      obtain ⟨q, hq2⟩ := hcellVal rk ck
      rw [hq2, jsOrZero_val]
    rw [hmapeq]
    refine round2_isCent (jsSum_isCent _ (fun x hx => ?_))
    obtain ⟨rk, _, rfl⟩ := List.mem_map.mp hx
    exact hcellCent rk ck

/-- Witness data for the pivot totals theorem: integer values `2` and `3`
in two row groups. -/
def pivotRowsW : List Row :=
  [[("g", Value.str "a"), ("v", Value.str "2")],
   [("g", Value.str "b"), ("v", Value.str "3")]]

/-- Witness configuration: row field `g`, value field `v`, `sum`. -/
def pivotCfgW : PivotConfig := ⟨"g", none, some "v", "sum"⟩

/-- The pivot result of the witness data. -/
def pivotResW : PivotResult :=
  PivotResult.mk (pivotUniqueRows pivotRowsW pivotCfgW)
    (pivotUniqueCols pivotRowsW pivotCfgW) (pivotCell pivotRowsW pivotCfgW)
    (pivotRowTotal pivotRowsW pivotCfgW) (pivotColTotal pivotRowsW pivotCfgW)
    (round2 (jsSum
      ((pivotUniqueRows pivotRowsW pivotCfgW).map
        (pivotRowTotal pivotRowsW pivotCfgW))))

/-- Witness for `pivot_totals_decompose` on the concrete integer table. -/
theorem pivot_totals_decompose_witness :
    pivotResW.grand = jsSum (pivotValues pivotCfgW.valueField pivotRowsW) ∧
    pivotResW.rowTotal "a" = jsSum (pivotResW.cols.map (pivotResW.cell "a")) ∧
    pivotResW.colTotal "Total"
      = jsSum (pivotResW.rows.map (fun rk => pivotResW.cell rk "Total")) := by
  have hmul : ∀ x ∈ pivotValues pivotCfgW.valueField pivotRowsW, isCent x := by
    intro x hx
    have h2 : pivotValues pivotCfgW.valueField pivotRowsW = [.val 2, .val 3] := by
      with_unfolding_all decide
    rw [h2] at hx
    rcases List.mem_cons.mp hx with rfl | hx2
    · exact ⟨200, by norm_num⟩
    · rcases List.mem_cons.mp hx2 with rfl | hx3
      · exact ⟨300, by norm_num⟩
      · cases hx3
  have h := pivot_totals_decompose pivotRowsW pivotCfgW pivotResW (by decide)
    (by decide) rfl hmul rfl
  exact ⟨h.1, h.2.1 "a", h.2.2 "Total"⟩

/-! ## DataQualityAnalyzer (`findOutliers`, premium utils lines 466-492) -/

/-- The numeric reading of one cell for outlier analysis: `none` when the
cell is `null`/`undefined`/the empty string or `Number(...)` is `NaN`, else
the coerced number (the filter-then-map of `findOutliers`). -/
def cellNumOpt (row : Row) (column : String) : Option JSNum :=
  let v := objGet row column
  if v = .null ∨ v = .undefined ∨ v = .str "" then none
  else
    match jsToNumber v with
    | .nan => none
    | x => some x

/-- The `values` array of `findOutliers`: the numeric cells of the column
paired with their original row indices, in row order. -/
def outlierEntries (data : List Row) (column : String) : List (JSNum × ℕ) :=
  data.enum.filterMap (fun p => (cellNumOpt p.2 column).map (fun x => (x, p.1)))

/-- Stable insertion of an entry into a value-sorted entry list (the
comparator `(a, b) => a.value - b.value` of the engine's stable
`Array.sort`). -/
def insertSortedEntry (x : JSNum × ℕ) :
    List (JSNum × ℕ) → List (JSNum × ℕ)
  | [] => [x]
  | y :: ys =>
    if JSNum.leb x.1 y.1 then x :: y :: ys else y :: insertSortedEntry x ys

/-- The entries sorted ascending by value (stable). -/
def sortEntries (l : List (JSNum × ℕ)) : List (JSNum × ℕ) :=
  l.foldr insertSortedEntry []

/-- The sorted numeric entries of a column. -/
def outlierSorted (data : List Row) (column : String) : List (JSNum × ℕ) :=
  sortEntries (outlierEntries data column)

/-- `Q1`: the value at index `floor(0.25 · n)` of the sorted entries
(`0.25` and `0.75` are exact binary fractions, so the floors are exact
integer divisions). -/
def outlierQ1 (data : List Row) (column : String) : JSNum :=
  ((outlierSorted data column).getD ((outlierSorted data column).length / 4)
    (.val 0, 0)).1

/-- `Q3`: the value at index `floor(0.75 · n)` of the sorted entries. -/
def outlierQ3 (data : List Row) (column : String) : JSNum :=
  ((outlierSorted data column).getD
    (3 * (outlierSorted data column).length / 4) (.val 0, 0)).1

/-- The lower IQR fence `Q1 - 1.5 * IQR`. -/
def outlierLower (data : List Row) (column : String) : JSNum :=
  (outlierQ1 data column).sub
    ((JSNum.val (3 / 2)).mul ((outlierQ3 data column).sub (outlierQ1 data column)))

/-- The upper IQR fence `Q3 + 1.5 * IQR`. -/
def outlierUpper (data : List Row) (column : String) : JSNum :=
  (outlierQ3 data column).add
    ((JSNum.val (3 / 2)).mul ((outlierQ3 data column).sub (outlierQ1 data column)))

/-- The value returned by `findOutliers`:
`{ outlierIndices, outlierCount, bounds }`. -/
structure OutlierResult where
  outlierIndices : List ℕ
  outlierCount : ℕ
  bounds : Option (JSNum × JSNum)
deriving DecidableEq, Repr

/-- `findOutliers(data, column)`: fewer than 4 numeric values reports no
outliers and no bounds; otherwise the indices of the (unsorted) entries
whose value lies strictly outside the IQR fences, with the reported bounds
rounded to two decimals. -/
def findOutliers (data : List Row) (column : String) : OutlierResult :=
  if (outlierEntries data column).length < 4 then ⟨[], 0, none⟩
  else
    let outlierIndices := ((outlierEntries data column).filter
      (fun e => JSNum.ltb e.1 (outlierLower data column) ||
        JSNum.ltb (outlierUpper data column) e.1)).map Prod.snd
    ⟨outlierIndices, outlierIndices.length,
     some (round2 (outlierLower data column), round2 (outlierUpper data column))⟩

/-- Helper: an entry of the outlier value list is exactly a numeric cell of
the data at its original row index. -/
theorem mem_outlierEntries (data : List Row) (column : String) (x : JSNum)
    (i : ℕ) :
    (x, i) ∈ outlierEntries data column ↔
      ∃ row, data[i]? = some row ∧ cellNumOpt row column = some x := by
  unfold outlierEntries
  rw [List.mem_filterMap]
  constructor
  · rintro ⟨⟨j, row⟩, hmem, hmap⟩
    rw [Option.map_eq_some'] at hmap
    obtain ⟨v, hv, hvx⟩ := hmap
    obtain ⟨hx, hi⟩ := Prod.mk.injEq .. ▸ hvx
    refine ⟨row, ?_, ?_⟩
    · rw [← hi]
      exact (List.mk_mem_enum_iff_getElem?).mp hmem
    · rw [hv, hx]
  · rintro ⟨row, hrow, hcell⟩
    refine ⟨(i, row), (List.mk_mem_enum_iff_getElem?).mpr hrow, ?_⟩
    rw [hcell]
    rfl

/-- The six-value column of the specification's outlier example. -/
def outlierRows6 : List Row :=
  [[("v", Value.str "1")], [("v", Value.str "2")], [("v", Value.str "3")],
   [("v", Value.str "4")], [("v", Value.str "5")], [("v", Value.str "100")]]

/-- Claim C7: `findOutliers` reports nothing below four numeric values;
with `n ≥ 4` values it flags exactly the original indices of the numeric
cells strictly outside the IQR fences `[Q1 - 1.5·IQR, Q3 + 1.5·IQR]`
(where `Q1`/`Q3` are the sorted values at `floor(0.25·n)`/`floor(0.75·n)`);
and on the column `[1,2,3,4,5,100]` it flags exactly the row holding `100`,
with fences `[-2.5, 9.5]`. -/
theorem findOutliers_iqr_semantics :
    (∀ (data : List Row) (column : String),
      (outlierEntries data column).length < 4 →
      findOutliers data column = ⟨[], 0, none⟩) ∧
    (∀ (data : List Row) (column : String),
      4 ≤ (outlierEntries data column).length → ∀ i : ℕ,
      (i ∈ (findOutliers data column).outlierIndices ↔
        ∃ row x, data[i]? = some row ∧ cellNumOpt row column = some x ∧
          (JSNum.ltb x (outlierLower data column) = true ∨
           JSNum.ltb (outlierUpper data column) x = true))) ∧
    findOutliers outlierRows6 "v"
      = ⟨[5], 1, some (.val (-5/2), .val (19/2))⟩ ∧
    objGet (outlierRows6.getD 5 []) "v" = Value.str "100" := by
  refine ⟨?_, ?_, ?_, ?_⟩
  · intro data column h
    unfold findOutliers
    rw [if_pos h]
  · intro data column h4 i
    unfold findOutliers
    rw [if_neg (by omega)]
    constructor
    · intro hi
      obtain ⟨e, he, hei⟩ := List.mem_map.mp hi
      obtain ⟨he2, hpred⟩ := List.mem_filter.mp he
      obtain ⟨row, hrow, hcell⟩ := (mem_outlierEntries data column e.1 e.2).mp
        (by rw [Prod.mk.eta]; exact he2)
      refine ⟨row, e.1, ?_, hcell, ?_⟩
      · rwa [hei] at hrow
      · simpa using hpred
    · rintro ⟨row, x, hrow, hcell, hout⟩
      refine List.mem_map.mpr ⟨(x, i), List.mem_filter.mpr ⟨?_, ?_⟩, rfl⟩
      · exact (mem_outlierEntries data column x i).mpr ⟨row, hrow, hcell⟩
      · simpa using hout
  · with_unfolding_all decide
  · with_unfolding_all decide

/-- Witness for `findOutliers_iqr_semantics` at concrete inputs: a
three-value column reports nothing, and index `5` of the example column is
flagged. -/
theorem findOutliers_iqr_semantics_witness :
    ((outlierEntries (outlierRows6.take 3) "v").length < 4 ∧
      findOutliers (outlierRows6.take 3) "v" = ⟨[], 0, none⟩) ∧
    (4 ≤ (outlierEntries outlierRows6 "v").length ∧
      (5 ∈ (findOutliers outlierRows6 "v").outlierIndices ↔
        ∃ row x, outlierRows6[5]? = some row ∧ cellNumOpt row "v" = some x ∧
          (JSNum.ltb x (outlierLower outlierRows6 "v") = true ∨
           JSNum.ltb (outlierUpper outlierRows6 "v") x = true))) :=
  ⟨⟨by with_unfolding_all decide,
    findOutliers_iqr_semantics.1 (outlierRows6.take 3) "v"
      (by with_unfolding_all decide)⟩,
   ⟨by with_unfolding_all decide,
    findOutliers_iqr_semantics.2.1 outlierRows6 "v"
      (by with_unfolding_all decide) 5⟩⟩

/-! ## AnonymizationTransformer (`AnonymizePanel.jsx` lines 32-104) -/

/-- ToInt32: wrap an integer into the signed 32-bit range (the effect of
JavaScript `hash & hash` and of `<<` on its operand). -/
def toInt32 (z : ℤ) : ℤ :=
  let m := z % 4294967296
  if m < 2147483648 then m else m - 4294967296

/-- One step of the rolling hash:
`hash = ((hash << 5) - hash) + char` followed by `hash = hash & hash`
(the shift wraps to 32 bits, the sum is exact in binary64 at these
magnitudes, and the `&` wraps the result). -/
def hashStep (h : ℤ) (c : ℕ) : ℤ := toInt32 (toInt32 (h * 32) - h + c)

/-- The rolling hash of a string (character codes via `charCodeAt`; equal
to the Unicode code point for the basic multilingual plane). -/
def hashFold (s : String) : ℤ :=
  s.toList.foldl (fun h c => hashStep h c.toNat) 0

/-- One lower-case hexadecimal digit. -/
def hexDigit (n : ℕ) : Char :=
  if n < 10 then Char.ofNat ('0'.toNat + n) else Char.ofNat ('a'.toNat + (n - 10))

/-- Hexadecimal digits of a number, most significant first (fuel-driven so
that the definition is structural; `natToHex` supplies enough fuel). -/
def natToHexAux : ℕ → ℕ → List Char
  | 0, _ => []
  | fuel + 1, n =>
    if n < 16 then [hexDigit n]
    else natToHexAux fuel (n / 16) ++ [hexDigit (n % 16)]

/-- `n.toString(16)` for a natural number. -/
def natToHex (n : ℕ) : List Char := natToHexAux (n + 1) n

/-- `padStart(width, c)` on a character list. -/
def padStartChars (l : List Char) (width : ℕ) (c : Char) : List Char :=
  List.replicate (width - l.length) c ++ l

/-- `hashValue(value)`: `Math.abs(hash).toString(16).padStart(8, '0')`,
then `slice(0, 8).toUpperCase()`. -/
def hashValue (s : String) : String :=
  String.mk (((padStartChars (natToHex (hashFold s).natAbs) 8 '0').take 8).map
    Char.toUpper)

/-- Split a character list at every occurrence of a separator. -/
def splitAtChar (sep : Char) : List Char → List Char → List String
  | [], cur => [String.mk cur.reverse]
  | c :: cs, cur =>
    if c = sep then String.mk cur.reverse :: splitAtChar sep cs []
    else splitAtChar sep cs (c :: cur)

/-- JavaScript `s.split(sep)` for a one-character separator. -/
def jsSplitOn (s : String) (sep : Char) : List String :=
  splitAtChar sep s.toList []

/-- `maskGeneric(value)`: keep the first and last character and star the
middle (at most five stars); values of length at most two become `***`. -/
def maskGeneric (value : String) : String :=
  if value.length ≤ 2 then "***"
  else
    String.mk (value.toList.take 1)
      ++ String.mk (List.replicate (min (value.length - 2) 5) '*')
      ++ String.mk (value.toList.drop (value.length - 1))

/-- `maskValue(value, smartType)`: semantic-aware partial redaction for
emails, phones and zip codes, generic masking otherwise. -/
def maskValue (value : String) (smartType : String) : String :=
  if smartType = "email" then
    let parts := jsSplitOn value '@'
    if parts.length = 2 then
      let localPart := parts.getD 0 ""
      let domain := parts.getD 1 ""
      let masked :=
        if 1 < localPart.length then String.mk (localPart.toList.take 1) ++ "***"
        else "***"
      masked ++ "@" ++ domain
    else maskGeneric value
  else if smartType = "phone" then
    let digits := value.toList.filter Char.isDigit
    if 4 ≤ digits.length then
      "***-***-" ++ String.mk (digits.drop (digits.length - 4))
    else "***-***-****"
  else if smartType = "zipcode" then
    let digits := value.toList.filter Char.isDigit
    if 2 ≤ digits.length then String.mk (digits.take 2) ++ "***"
    else "*****"
  else maskGeneric value

/-- `anonymizeValue(value, method, smartType)`: nullish and empty values
pass through; otherwise mask, redact (`[REDACTED]`), hash, or remove
(`null`, handled at column level); an unknown method returns the value
unchanged.  The `smartType` is a plain string (an absent smart type takes
the generic path). -/
def anonymizeValue (value : Value) (method : String) (smartType : String) :
    Value :=
  if value = .null ∨ value = .undefined ∨ value = .str "" then value
  else
    let strValue := jsToString value
    if method = "mask" then .str (maskValue strValue smartType)
    else if method = "redact" then .str "[REDACTED]"
    else if method = "hash" then .str (hashValue strValue)
    else if method = "remove" then .null
    else value

/-- Claim C8: `anonymizeValue` is a pure, deterministic function of
`(value, method, smartType)` — identical inputs give identical outputs —
and hashing any non-blank value yields a string token of fixed width `8`. -/
theorem anonymizeValue_deterministic_fixed_width :
    (∀ (v : Value) (m t : String), anonymizeValue v m t = anonymizeValue v m t) ∧
    (∀ s : String, (hashValue s).length = 8) ∧
    (∀ (v : Value) (t : String), ¬(v = .null ∨ v = .undefined ∨ v = .str "") →
      ∃ s : String, anonymizeValue v "hash" t = .str s ∧ s.length = 8) := by
  have hwidth : ∀ s : String, (hashValue s).length = 8 := by
    intro s
    show (((padStartChars (natToHex (hashFold s).natAbs) 8 '0').take 8).map
      Char.toUpper).length = 8
    rw [List.length_map, List.length_take]
    unfold padStartChars
    rw [List.length_append, List.length_replicate]
    omega
  refine ⟨fun v m t => rfl, hwidth, ?_⟩
  intro v t h
  refine ⟨hashValue (jsToString v), ?_, hwidth _⟩
  unfold anonymizeValue
  rw [if_neg h]
  norm_num
  rw [if_neg (by decide), if_neg (by decide)]

/-- Witness for `anonymizeValue_deterministic_fixed_width` at the value
`"abc"`. -/
theorem anonymizeValue_deterministic_fixed_width_witness :
    ¬(Value.str "abc" = .null ∨ Value.str "abc" = .undefined ∨
      Value.str "abc" = .str "") ∧
    ∃ s : String, anonymizeValue (.str "abc") "hash" "none" = .str s ∧
      s.length = 8 :=
  ⟨by decide,
   anonymizeValue_deterministic_fixed_width.2.2 (.str "abc") "none" (by decide)⟩

/-! ## TypeInferenceEngine (`detectType`/`detectColumnTypes`,
`src/lib/utils.js` lines 8-38) -/

/-- `detectType(value)`: blank values are `string`; a value whose `Number`
coercion is non-`NaN` and whose trimmed form is nonempty is `number`; then
the date heuristic — abstracted as the oracle `jsDateValid`, standing for
`!isNaN(new Date(value).getTime()) && value.length > 5` in `lib/utils.js`
(the premium variant guards with a digit-pattern test instead; the theorems
below hold for every instantiation) — yields `date`; everything else is
`string`. -/
def detectType (jsDateValid : String → Bool) (v : Value) : String :=
  match v with
  | .null => "string"
  | .undefined => "string"
  | .str s =>
    if s = "" then "string"
    else if !(jsStringToNumber s).isNaN && jsTrim s ≠ "" then "number"
    else if jsDateValid s then "date"
    else "string"

/-- The per-column sampling loop of `detectColumnTypes`: scan the sampled
rows; on each truthy cell compute `detectType` and stop at the first
non-`string` answer.  (The loop variable is overwritten with `string` on
string-typed truthy cells and only a non-`string` assignment breaks, so its
final value is the first non-`string` type found, else `string`.) -/
def columnScan (jsDateValid : String → Bool) (key : String) :
    List Row → String
  | [] => "string"
  | row :: rest =>
    if jsTruthy (objGet row key) then
      if detectType jsDateValid (objGet row key) = "string" then
        columnScan jsDateValid key rest
      else detectType jsDateValid (objGet row key)
    else columnScan jsDateValid key rest

/-- `detectColumnTypes(data)`: empty data gives no types; otherwise each
column of the first row is scanned over `data.slice(0, 10)`. -/
def detectColumnTypes (jsDateValid : String → Bool) (data : List Row) :
    List (String × String) :=
  match data with
  | [] => []
  | first :: _ =>
    (first.map Prod.fst).map
      (fun key => (key, columnScan jsDateValid key (data.take 10)))

/-- The specification's reading of the column rule: the `detectType` of the
first non-blank sampled value whose type is not `string`, else `string`. -/
def firstNonStringType (jsDateValid : String → Bool) (vals : List Value) :
    String :=
  ((((vals.filter (fun v => !isBlank v)).map (detectType jsDateValid)).filter
    (fun t => t ≠ "string")).head?).getD "string"

/-- Helper: a blank value is skipped by the specification's reading. -/
theorem firstNonStringType_cons_blank (j : String → Bool) (v : Value)
    (vs : List Value) (hbv : isBlank v = true) :
    firstNonStringType j (v :: vs) = firstNonStringType j vs := by
  unfold firstNonStringType
  simp [List.filter_cons, hbv]

/-- Helper: a non-blank value is consulted by the specification's
reading. -/
theorem firstNonStringType_cons_keep (j : String → Bool) (v : Value)
    (vs : List Value) (hbv : isBlank v = false) :
    firstNonStringType j (v :: vs)
      = (if detectType j v = "string" then firstNonStringType j vs
         else detectType j v) := by
  unfold firstNonStringType
  by_cases ht : detectType j v = "string"
  · simp [List.filter_cons, hbv, ht]
  · simp [List.filter_cons, hbv, ht]

/-- Helper: one step of the sampling loop. -/
theorem columnScan_cons (j : String → Bool) (key : String) (row : Row)
    (rest : List Row) :
    columnScan j key (row :: rest)
      = (if jsTruthy (objGet row key) then
          (if detectType j (objGet row key) = "string" then
            columnScan j key rest
          else detectType j (objGet row key))
        else columnScan j key rest) := rfl

/-- Helper: the sampling loop computes the specification's reading, for
any date heuristic that rejects white-space-only strings. -/
theorem columnScan_eq_firstNonStringType (j : String → Bool)
    (hsane : ∀ s : String, jsTrim s = "" → j s = false) (key : String)
    (sample : List Row) :
    columnScan j key sample
      = firstNonStringType j (sample.map (fun row => objGet row key)) := by
  induction sample with
  | nil => rfl
  | cons row rest ih =>
    rw [List.map_cons, columnScan_cons]
    cases hv : objGet row key with
    | null =>
      rw [firstNonStringType_cons_blank j _ _ (by rw [isBlank])]
      simpa [jsTruthy] using ih
    | undefined =>
      rw [firstNonStringType_cons_blank j _ _ (by rw [isBlank])]
      simpa [jsTruthy] using ih
    | str s =>
      by_cases htrim : jsTrim s = ""
      · rw [firstNonStringType_cons_blank j _ _ (by simp [isBlank, htrim])]
        by_cases hs : s = ""
        · simpa [jsTruthy, hs] using ih
        · have hty : detectType j (Value.str s) = "string" := by
            simp only [detectType]
            rw [if_neg hs, if_neg (by simp [htrim]),
              if_neg (by simp [hsane s htrim])]
          simpa [jsTruthy, hs, hty] using ih
      · have hs : s ≠ "" := by
          rintro rfl
          exact htrim rfl
        rw [firstNonStringType_cons_keep j _ _ (by simp [isBlank, hs, htrim])]
        rw [ih]
        simp [jsTruthy, hs]

/-- Claim C9: `detectColumnTypes` examines only the first ten rows — extra
rows beyond a ten-row prefix never change the result — and each column is
typed with the `detectType` of the first non-blank sampled value whose type
is not `string`, else `string` (for any date heuristic rejecting
white-space-only strings).  Consequently a column whose first ten rows are
all string-typed stays `string` no matter what follows. -/
theorem detectColumnTypes_first10 :
    (∀ (j : String → Bool) (d10 rest : List Row), d10.length = 10 →
      detectColumnTypes j (d10 ++ rest) = detectColumnTypes j d10) ∧
    (∀ (j : String → Bool), (∀ s : String, jsTrim s = "" → j s = false) →
      ∀ (key : String) (sample : List Row),
      columnScan j key sample
        = firstNonStringType j (sample.map (fun row => objGet row key))) := by
  constructor
  · intro j d10 rest hlen
    cases d10 with
    | nil => simp at hlen
    | cons f t =>
      have htake : ((f :: t) ++ rest).take 10 = (f :: t).take 10 := by
        rw [List.take_append_eq_append_take, hlen]
        simp
      have htake2 : (f :: t).take 10 = f :: t := by
        rw [← hlen, List.take_length]
      unfold detectColumnTypes
      rw [List.cons_append] at htake ⊢
      rw [htake, htake2]
  · exact columnScan_eq_firstNonStringType

/-- Witness for `detectColumnTypes_first10`: ten string rows followed by a
numeric row still type the column `string`, and the scan of a mixed sample
matches the specification's reading. -/
theorem detectColumnTypes_first10_witness :
    ((List.replicate 10 [("c", Value.str "x")] : List Row).length = 10 ∧
      detectColumnTypes (fun _ => false)
          (List.replicate 10 [("c", Value.str "x")] ++ [[("c", Value.str "5")]])
        = detectColumnTypes (fun _ => false)
            (List.replicate 10 [("c", Value.str "x")])) ∧
    columnScan (fun _ => false) "c"
        [[("c", Value.null)], [("c", Value.str " ")], [("c", Value.str "7")]]
      = firstNonStringType (fun _ => false)
          ([[("c", Value.null)], [("c", Value.str " ")],
            [("c", Value.str "7")]].map (fun row => objGet row "c")) :=
  ⟨⟨by decide,
    detectColumnTypes_first10.1 (fun _ => false)
      (List.replicate 10 [("c", Value.str "x")]) [[("c", Value.str "5")]]
      (by decide)⟩,
   detectColumnTypes_first10.2 (fun _ => false) (fun _ _ => rfl) "c"
     [[("c", Value.null)], [("c", Value.str " ")], [("c", Value.str "7")]]⟩
